import Mathlib

/-!
Verification development for the InviFinder fetch-merge-price pipeline
(`fetch.js`).  The JavaScript source is shallowly embedded: JS objects used
as string-keyed maps become insertion-ordered association lists, optional /
missing JSON fields become `Option`, JS falsiness on strings (`"" `is falsy)
is modelled explicitly, network responses are supplied by explicit oracles,
and the timed waits and outbound calls of the price pass are recorded as an
event trace.
-/

namespace InviFinder

/-- JS `String.prototype.toLowerCase` (ASCII range, which is all the source
relies on), computed characterwise. -/
def jsToLower (s : String) : String :=
  String.mk (s.data.map Char.toLower)

/-- JS `String.prototype.trim`: strip leading and trailing whitespace. -/
def jsTrim (s : String) : String :=
  String.mk (((s.data.dropWhile Char.isWhitespace).reverse.dropWhile Char.isWhitespace).reverse)

/-- JS truthiness of an optional string field: `undefined`, `null` and `""`
are falsy. -/
def jsTruthy : Option String → Bool
  | none => false
  | some s => s ≠ ""

/-- Evaluation of `a || dflt` on an optional string field, as in the source's
field-defaulting expressions: a falsy value (missing or empty) falls through
to the default. -/
def jsStrOr (a : Option String) (dflt : String) : String :=
  match a with
  | some s => if s = "" then dflt else s
  | none => dflt

/-- First-match lookup in a string-keyed association list (JS object
property read; keys are unique by construction in all maps built below). -/
def assocFind {α : Type} : List (String × α) → String → Option α
  | [], _ => none
  | (k, v) :: rest, key => if k = key then some v else assocFind rest key

/-- Upsert step `if (!m[key]) m[key] = dflt; <mutate m[key] with f>` — update the entry
in place when the key is present, otherwise append the defaulted, updated
entry (JS objects preserve insertion order for string keys). -/
def upsert {α : Type} : List (String × α) → String → α → (α → α) → List (String × α)
  | [], key, dflt, f => [(key, f dflt)]
  | (k, v) :: rest, key, dflt, f =>
    if k = key then (k, f v) :: rest else (k, v) :: upsert rest key dflt f

/-- Normalized per-printing card record produced by the deck/collection
readers (`fetchDeck` / `fetchCollection` push literals). -/
structure RawCardEntry where
  name : String
  qty : Nat
  set : String
  setName : String
  collectorNumber : String
  finishes : List String
  isFoil : Bool
  scryfallId : String
  deriving DecidableEq, Repr

/-- One deduplicated printing inside an owner's holdings of one card.
`price` starts `none`; the enrichment pass stores the price string returned
by the pricing API (the source's `parseFloat` conversion of that numeral
string is kept as the string itself in this embedding). -/
structure Printing where
  qty : Nat
  set : String
  setName : String
  isFoil : Bool
  collectorNumber : String
  scryfallId : String
  price : Option String
  deriving DecidableEq, Repr

/-- The object literal pushed for a card whose `(set, isFoil)` printing is
not yet present (`printings.push({...})` in the merge loop). -/
def newPrinting (card : RawCardEntry) : Printing :=
  { qty := card.qty
    set := card.set
    setName := card.setName
    isFoil := card.isFoil
    collectorNumber := card.collectorNumber
    scryfallId := card.scryfallId
    price := none }

/-- Find-or-push step `printings.find(p => p.set === card.set && p.isFoil === card.isFoil)`
followed by `existingPrinting.qty += card.qty` on the first match, else
`printings.push(...)`. -/
def addToPrintings : List Printing → RawCardEntry → List Printing
  | [], card => [newPrinting card]
  | p :: ps, card =>
    if p.set = card.set ∧ p.isFoil = card.isFoil then
      { p with qty := p.qty + card.qty } :: ps
    else
      p :: addToPrintings ps card

/-- Per-card aggregate: display name fixed at creation, plus per-owner
printing lists. -/
structure CardAggregate where
  name : String
  owners : List (String × List Printing)
  deriving DecidableEq, Repr

/-- The global `cardsMap` object: lowercased card name → aggregate. -/
abbrev CardsMap := List (String × CardAggregate)

/-- Body of the merge loop of `main` for one `card`: key by
`card.name.toLowerCase()`, create the aggregate (storing the original-case
name) and the owner's printing list when absent, then fold the entry into
that owner's printings. -/
def mergeCard (m : CardsMap) (owner : String) (card : RawCardEntry) : CardsMap :=
  upsert m (jsToLower card.name) { name := card.name, owners := [] }
    (fun agg => { agg with owners := upsert agg.owners owner [] (fun ps => addToPrintings ps card) })

/-- The merge loop run over a sequence of (owner, entry) pairs in order; the
full run of `main` folds every fetched entry of every source through
`mergeCard` in exactly this way. -/
def mergeAll : CardsMap → List (String × RawCardEntry) → CardsMap
  | m, [] => m
  | m, (owner, card) :: rest => mergeAll (mergeCard m owner card) rest

/-- The printing list stored for `key`/`owner` in the aggregate map. -/
def lookupPrintings (m : CardsMap) (key owner : String) : Option (List Printing) :=
  (assocFind m key).bind fun agg => assocFind agg.owners owner

theorem mergeAll_append (l₁ l₂ : List (String × RawCardEntry)) :
    ∀ m, mergeAll m (l₁ ++ l₂) = mergeAll (mergeAll m l₁) l₂ := by
  induction l₁ with
  | nil => intro m; rfl
  | cons x rest ih =>
    intro m
    cases x with
    | mk o c => simpa [mergeAll] using ih (mergeCard m o c)

/-- C1: two entries for the same owner whose lowercased trimmed names, sets
and foil flags agree (entry names are reader-trimmed) merge into exactly one
printing whose quantity is the sum of the two quantities. -/
theorem merge_pair_same_printing (e₁ e₂ : RawCardEntry) (owner : String)
    (ht₁ : jsTrim e₁.name = e₁.name) (ht₂ : jsTrim e₂.name = e₂.name)
    (hn : jsToLower (jsTrim e₁.name) = jsToLower (jsTrim e₂.name))
    (hs : e₁.set = e₂.set) (hf : e₁.isFoil = e₂.isFoil) :
    ∃ p : Printing,
      lookupPrintings (mergeAll [] [(owner, e₁), (owner, e₂)]) (jsToLower e₁.name) owner
        = some [p] ∧
      p.qty = e₁.qty + e₂.qty ∧ p.set = e₁.set ∧ p.isFoil = e₁.isFoil := by
  rw [ht₁, ht₂] at hn
  refine ⟨{ newPrinting e₁ with qty := e₁.qty + e₂.qty }, ?_, rfl, rfl, rfl⟩
  simp [mergeAll, mergeCard, upsert, lookupPrintings, assocFind, addToPrintings,
    newPrinting, hn, hs, hf]

def c1e₁ : RawCardEntry :=
  { name := "Lightning Bolt", qty := 2, set := "lea", setName := "Limited Edition Alpha"
    collectorNumber := "161", finishes := [], isFoil := false, scryfallId := "" }

def c1e₂ : RawCardEntry :=
  { name := "lightning bolt", qty := 3, set := "lea", setName := "Limited Edition Alpha"
    collectorNumber := "161", finishes := [], isFoil := false, scryfallId := "" }

/-- Witness for C1 at concrete entries differing only in name casing. -/
theorem merge_pair_same_printing_w :
    ∃ p : Printing,
      lookupPrintings (mergeAll [] [("Fausto", c1e₁), ("Fausto", c1e₂)]) (jsToLower c1e₁.name) "Fausto"
        = some [p] ∧
      p.qty = c1e₁.qty + c1e₂.qty ∧ p.set = c1e₁.set ∧ p.isFoil = c1e₁.isFoil :=
  merge_pair_same_printing c1e₁ c1e₂ "Fausto" (by decide) (by decide) (by decide)
    (by decide) (by decide)

/-- C2: two entries for the same owner and card name that differ in set or
foil flag yield two distinct printings; neither quantity is summed into the
other. -/
theorem merge_pair_distinct_printings (e₁ e₂ : RawCardEntry) (owner : String)
    (hn : e₁.name = e₂.name)
    (hd : e₁.set ≠ e₂.set ∨ e₁.isFoil ≠ e₂.isFoil) :
    lookupPrintings (mergeAll [] [(owner, e₁), (owner, e₂)]) (jsToLower e₁.name) owner
      = some [newPrinting e₁, newPrinting e₂] ∧
    newPrinting e₁ ≠ newPrinting e₂ ∧
    (newPrinting e₁).qty = e₁.qty ∧ (newPrinting e₂).qty = e₂.qty := by
  have hcond : ¬ (e₁.set = e₂.set ∧ e₁.isFoil = e₂.isFoil) := by
    rcases hd with h | h <;> simp [h]
  refine ⟨?_, ?_, rfl, rfl⟩
  · simp [mergeAll, mergeCard, upsert, lookupPrintings, assocFind, addToPrintings,
      newPrinting, hn, hcond]
  · intro h
    apply hcond
    exact ⟨congrArg Printing.set h, congrArg Printing.isFoil h⟩

def c2e₁ : RawCardEntry :=
  { name := "Lightning Bolt", qty := 2, set := "lea", setName := "Limited Edition Alpha"
    collectorNumber := "161", finishes := [], isFoil := false, scryfallId := "" }

def c2e₂ : RawCardEntry :=
  { name := "Lightning Bolt", qty := 2, set := "lea", setName := "Limited Edition Alpha"
    collectorNumber := "161", finishes := ["foil"], isFoil := true, scryfallId := "" }

/-- Witness for C2 at concrete entries differing only in the foil flag. -/
theorem merge_pair_distinct_printings_w :
    lookupPrintings (mergeAll [] [("Fausto", c2e₁), ("Fausto", c2e₂)]) (jsToLower c2e₁.name) "Fausto"
      = some [newPrinting c2e₁, newPrinting c2e₂] ∧
    newPrinting c2e₁ ≠ newPrinting c2e₂ ∧
    (newPrinting c2e₁).qty = c2e₁.qty ∧ (newPrinting c2e₂).qty = c2e₂.qty :=
  merge_pair_distinct_printings c2e₁ c2e₂ "Fausto" rfl (Or.inr (by decide))

theorem assocFind_upsert_self {α : Type} (m : List (String × α)) (key : String) (dflt : α)
    (f : α → α) :
    assocFind (upsert m key dflt f) key = some (f ((assocFind m key).getD dflt)) := by
  induction m with
  | nil => simp [upsert, assocFind]
  | cons kv rest ih =>
    cases kv with
    | mk k v =>
      by_cases hk : k = key
      · simp [upsert, assocFind, hk]
      · simp [upsert, assocFind, hk, ih]

theorem assocFind_upsert_ne {α : Type} (m : List (String × α)) (key key' : String) (dflt : α)
    (f : α → α) (h : key ≠ key') :
    assocFind (upsert m key dflt f) key' = assocFind m key' := by
  induction m with
  | nil => simp [upsert, assocFind, h]
  | cons kv rest ih =>
    cases kv with
    | mk k v =>
      by_cases hk : k = key
      · subst hk; simp [upsert, assocFind, h]
      · simp [upsert, assocFind, hk, ih]

theorem mergeCard_name_keep (m : CardsMap) (o : String) (e : RawCardEntry) (k : String)
    (agg : CardAggregate) (h : assocFind m k = some agg) :
    ∃ agg', assocFind (mergeCard m o e) k = some agg' ∧ agg'.name = agg.name := by
  by_cases hk : jsToLower e.name = k
  · subst hk
    refine ⟨_, assocFind_upsert_self m _ _ _, ?_⟩
    simp [h]
  · exact ⟨agg, by rw [mergeCard, assocFind_upsert_ne _ _ _ _ _ hk]; exact h, rfl⟩

theorem mergeCard_name_new (m : CardsMap) (o : String) (e : RawCardEntry)
    (h : assocFind m (jsToLower e.name) = none) :
    ∃ agg, assocFind (mergeCard m o e) (jsToLower e.name) = some agg ∧ agg.name = e.name := by
  refine ⟨_, assocFind_upsert_self m _ _ _, ?_⟩
  simp [h]

theorem mergeAll_name_keep (l : List (String × RawCardEntry)) :
    ∀ (m : CardsMap) (k : String) (agg : CardAggregate), assocFind m k = some agg →
      ∃ agg', assocFind (mergeAll m l) k = some agg' ∧ agg'.name = agg.name := by
  induction l with
  | nil => exact fun m k agg h => ⟨agg, h, rfl⟩
  | cons oe rest ih =>
    intro m k agg h
    cases oe with
    | mk o e =>
      obtain ⟨agg', h', hname⟩ := mergeCard_name_keep m o e k agg h
      obtain ⟨agg'', h'', hname'⟩ := ih (mergeCard m o e) k agg' h'
      exact ⟨agg'', h'', hname'.trans hname⟩

/-- C8: the display name stored under a card key is the original-case name of
the first entry that introduced that key; no later entry (in particular none
differing only in casing) overwrites it. -/
theorem display_name_first_wins (pre post : List (String × RawCardEntry))
    (owner : String) (e : RawCardEntry)
    (h : assocFind (mergeAll [] pre) (jsToLower e.name) = none) :
    ∃ agg, assocFind (mergeAll [] (pre ++ (owner, e) :: post)) (jsToLower e.name) = some agg ∧
      agg.name = e.name := by
  rw [mergeAll_append]
  show ∃ agg, assocFind (mergeAll (mergeCard (mergeAll [] pre) owner e) post) _ = some agg ∧ _
  obtain ⟨agg, h₁, hname⟩ := mergeCard_name_new (mergeAll [] pre) owner e h
  obtain ⟨agg', h₂, hname'⟩ := mergeAll_name_keep post _ _ agg h₁
  exact ⟨agg', h₂, hname'.trans hname⟩

def c8first : RawCardEntry :=
  { name := "Sol Ring", qty := 1, set := "c21", setName := "Commander 2021"
    collectorNumber := "263", finishes := [], isFoil := false, scryfallId := "" }

def c8later : RawCardEntry :=
  { name := "SOL RING", qty := 4, set := "lea", setName := "Limited Edition Alpha"
    collectorNumber := "270", finishes := [], isFoil := false, scryfallId := "" }

/-- Witness for C8: a later entry differing only in casing does not change
the stored display name. -/
theorem display_name_first_wins_w :
    ∃ agg,
      assocFind (mergeAll [] ([] ++ ("Fausto", c8first) :: [("Irene", c8later)]))
          (jsToLower c8first.name) = some agg ∧
        agg.name = c8first.name :=
  display_name_first_wins [] [("Irene", c8later)] "Fausto" c8first rfl

/-- One HTTP response presented to `httpGet`; `body` is the result of
`JSON.parse` on the buffered 200 body (`none` = malformed JSON). Bodies of
non-200 responses are discarded unread (`res.resume()`), so they carry no
payload here. -/
structure HResp (α : Type) where
  statusCode : Nat
  body : Option α
  deriving DecidableEq, Repr

/-- The failure messages `httpGet` rejects with, by shape:
`retryExhausted code` = "HTTP {code} after all retries",
`httpStatus code` = "HTTP {code} for {url}",
`malformed` = "Bad JSON from {url}: …", `transport` = the socket error
forwarded by `.on('error', reject)` (modelled here as the response oracle
running dry). -/
inductive HErr where
  | retryExhausted (code : Nat)
  | httpStatus (code : Nat)
  | malformed
  | transport
  deriving DecidableEq, Repr

/-- Model of `httpGet(url, retries)` run against the sequence of responses the server
would produce for the successive attempts.  Returns the outcome and the list
of waits (ms) performed before each retry: on 429 or ≥500 with retries left,
wait 5000 (429) or 2000 (5xx) and retry with `retries - 1`; with none left,
reject carrying the last status; other non-200 rejects immediately; a 200
body is parsed as JSON. -/
def httpGet {α : Type} : List (HResp α) → Nat → Except HErr α × List Nat
  | [], _ => (Except.error HErr.transport, [])
  | r :: rest, retries =>
    if r.statusCode = 429 ∨ 500 ≤ r.statusCode then
      if 0 < retries then
        let wait := if r.statusCode = 429 then 5000 else 2000
        let out := httpGet rest (retries - 1)
        (out.1, wait :: out.2)
      else
        (Except.error (HErr.retryExhausted r.statusCode), [])
    else if r.statusCode ≠ 200 then
      (Except.error (HErr.httpStatus r.statusCode), [])
    else
      match r.body with
      | some payload => (Except.ok payload, [])
      | none => (Except.error HErr.malformed, [])

/-- C3: with retry budget 2, responses [503, 503, 200] yield the parsed 200
payload (after two 2-second waits); [503, 503, 503] fails with
`retryExhausted` carrying the last status; every 429 retry waits 5000 ms and
every 5xx retry waits 2000 ms before the recursive attempt. -/
theorem httpGet_retry_accounting {α : Type} (payload : α) :
    (∀ b₁ b₂ : Option α,
      httpGet [⟨503, b₁⟩, ⟨503, b₂⟩, ⟨200, some payload⟩] 2
        = (Except.ok payload, [2000, 2000])) ∧
    (∀ b₁ b₂ b₃ : Option α,
      httpGet [⟨503, b₁⟩, ⟨503, b₂⟩, ⟨503, b₃⟩] 2
        = (Except.error (HErr.retryExhausted 503), [2000, 2000])) ∧
    (∀ (r : HResp α) (rest : List (HResp α)) (retries : Nat),
      r.statusCode = 429 → 0 < retries →
      httpGet (r :: rest) retries
        = ((httpGet rest (retries - 1)).1, 5000 :: (httpGet rest (retries - 1)).2)) ∧
    (∀ (r : HResp α) (rest : List (HResp α)) (retries : Nat),
      500 ≤ r.statusCode → 0 < retries →
      httpGet (r :: rest) retries
        = ((httpGet rest (retries - 1)).1, 2000 :: (httpGet rest (retries - 1)).2)) := by
  refine ⟨?_, ?_, ?_, ?_⟩
  · intro b₁ b₂; rfl
  · intro b₁ b₂ b₃; rfl
  · intro r rest retries h429 hr
    simp [httpGet, h429, hr]
  · intro r rest retries h5xx hr
    have hne : r.statusCode ≠ 429 := by omega
    simp [httpGet, h5xx, hr, hne]

/-- Witness for C3: the two concrete retry scenarios and the two wait
durations at concrete responses, retry budget 2. -/
theorem httpGet_retry_accounting_w :
    httpGet [⟨503, none⟩, ⟨503, none⟩, ⟨200, some 7⟩] 2
        = (Except.ok 7, [2000, 2000]) ∧
    httpGet [⟨503, (none : Option Nat)⟩, ⟨503, none⟩, ⟨503, none⟩] 2
        = (Except.error (HErr.retryExhausted 503), [2000, 2000]) ∧
    httpGet [(⟨429, none⟩ : HResp Nat), ⟨200, some 7⟩] 2
        = ((httpGet [(⟨200, some 7⟩ : HResp Nat)] 1).1,
            5000 :: (httpGet [(⟨200, some 7⟩ : HResp Nat)] 1).2) ∧
    httpGet [(⟨502, none⟩ : HResp Nat), ⟨200, some 7⟩] 2
        = ((httpGet [(⟨200, some 7⟩ : HResp Nat)] 1).1,
            2000 :: (httpGet [(⟨200, some 7⟩ : HResp Nat)] 1).2) :=
  ⟨(httpGet_retry_accounting 7).1 none none,
   (httpGet_retry_accounting (0 : Nat)).2.1 none none none,
   (httpGet_retry_accounting (7 : Nat)).2.2.1 ⟨429, none⟩ [⟨200, some 7⟩] 2 rfl (by decide),
   (httpGet_retry_accounting (7 : Nat)).2.2.2 ⟨502, none⟩ [⟨200, some 7⟩] 2 (by decide) (by decide)⟩

/-- Character class `[A-Za-z0-9_-]` of the two capture groups in
`parseMoxfieldUrl`. -/
def isTokenChar (c : Char) : Bool :=
  c.isAlpha || c.isDigit || c = '_' || c = '-'

/-- JS `url.match(/<seg>([A-Za-z0-9_-]+)/)` restricted to what the source
needs: scan left to right for the first position where the literal `seg` is
followed by at least one token character, and return the greedy token run
(the capture group); `none` when no position matches. -/
def findSegMatch (seg : List Char) : List Char → Option (List Char)
  | [] => none
  | c :: rest =>
    if seg.isPrefixOf (c :: rest) then
      let tok := ((c :: rest).drop seg.length).takeWhile isTokenChar
      if tok.isEmpty then findSegMatch seg rest else some tok
    else findSegMatch seg rest

inductive RefKind where
  | deck
  | collection
  deriving DecidableEq, Repr

/-- Record `{ type, id }` returned by `parseMoxfieldUrl`. -/
structure ParsedRef where
  kind : RefKind
  id : List Char
  deriving DecidableEq, Repr

def deckSeg : List Char := "/decks/".toList

def collSeg : List Char := "/collection/".toList

/-- Classifier `parseMoxfieldUrl`: try the deck pattern first, then the collection
pattern, else `null`.  URLs are modelled as their character sequences. -/
def parseMoxfieldUrl (url : List Char) : Option ParsedRef :=
  match findSegMatch deckSeg url with
  | some t => some ⟨RefKind.deck, t⟩
  | none =>
    match findSegMatch collSeg url with
    | some t => some ⟨RefKind.collection, t⟩
    | none => none

/-- Declarative reading of "the URL contains a path segment `<seg><token>`":
somewhere in the string, the literal `seg` is followed by at least one token
character.  Stated independently of `findSegMatch`. -/
def hasSeg (seg url : List Char) : Prop :=
  ∃ pre c post, url = pre ++ seg ++ c :: post ∧ isTokenChar c = true

theorem hasSeg_of_findSegMatch (seg : List Char) :
    ∀ url t, findSegMatch seg url = some t →
      hasSeg seg url ∧ t ≠ [] ∧ ∀ c ∈ t, isTokenChar c = true := by
  intro url
  induction url with
  | nil => intro t h; simp [findSegMatch] at h
  | cons a rest ih =>
    intro t h
    rw [findSegMatch] at h
    by_cases hpre : seg.isPrefixOf (a :: rest)
    · rw [if_pos hpre] at h
      obtain ⟨suffix, hsuf⟩ := List.isPrefixOf_iff_prefix.mp hpre
      by_cases htokE : (((a :: rest).drop seg.length).takeWhile isTokenChar).isEmpty
      · rw [if_pos htokE] at h
        obtain ⟨⟨pre, c, post, heq, htok⟩, hne, hall⟩ := ih t h
        exact ⟨⟨a :: pre, c, post, by simp [heq], htok⟩, hne, hall⟩
      · rw [if_neg htokE] at h
        have hdrop : (a :: rest).drop seg.length = suffix := by
          rw [← hsuf]; exact List.drop_left seg suffix
        rw [hdrop] at h htokE
        cases suffix with
        | nil => simp at htokE
        | cons c post =>
          have hc : isTokenChar c = true := by
            by_contra hc
            rw [List.takeWhile_cons_of_neg (by simpa using hc)] at htokE
            simp at htokE
          refine ⟨⟨[], c, post, by simp [← hsuf], hc⟩, ?_, ?_⟩
          · intro ht
            rw [ht] at h
            rw [Option.some_inj.mp h] at htokE
            simp at htokE
          · intro x hx
            rw [← Option.some_inj.mp h] at hx
            exact List.mem_takeWhile_imp hx
    · rw [if_neg hpre] at h
      obtain ⟨⟨pre, c, post, heq, htok⟩, hne, hall⟩ := ih t h
      exact ⟨⟨a :: pre, c, post, by simp [heq], htok⟩, hne, hall⟩

theorem findSegMatch_isSome_of_hasSeg (seg : List Char) :
    ∀ url, hasSeg seg url → (findSegMatch seg url).isSome = true := by
  intro url
  induction url with
  | nil =>
    rintro ⟨pre, c, post, heq, -⟩
    exact absurd heq (by simp)
  | cons a rest ih =>
    rintro ⟨pre, c, post, heq, htok⟩
    rw [findSegMatch]
    by_cases hpre : seg.isPrefixOf (a :: rest)
    · rw [if_pos hpre]
      by_cases htokE : (((a :: rest).drop seg.length).takeWhile isTokenChar).isEmpty
      · rw [if_pos htokE]
        cases pre with
        | nil =>
          exfalso
          simp only [List.nil_append] at heq
          rw [heq, List.drop_left seg (c :: post),
            List.takeWhile_cons_of_pos htok] at htokE
          simp at htokE
        | cons b pre' =>
          apply ih
          have : rest = pre' ++ seg ++ c :: post := by
            have := heq
            simp only [List.cons_append] at this
            exact (List.cons_eq_cons.mp this).2
          exact ⟨pre', c, post, this, htok⟩
      · rw [if_neg htokE]; rfl
    · rw [if_neg hpre]
      cases pre with
      | nil =>
        exfalso
        apply hpre
        apply List.isPrefixOf_iff_prefix.mpr
        exact ⟨c :: post, by simpa using heq.symm⟩
      | cons b pre' =>
        apply ih
        have : rest = pre' ++ seg ++ c :: post := by
          have := heq
          simp only [List.cons_append] at this
          exact (List.cons_eq_cons.mp this).2
        exact ⟨pre', c, post, this, htok⟩

/-- C7: a URL containing `/decks/<token>` classifies as a deck reference
(deck wins even when the collection pattern is also present, because it is
checked first); otherwise one containing `/collection/<token>` classifies as
a collection reference; otherwise the classifier returns `null`.  Every
returned token is a nonempty run of `[A-Za-z0-9_-]` characters. -/
theorem parseMoxfieldUrl_classification (url : List Char) :
    (hasSeg deckSeg url →
      ∃ t, parseMoxfieldUrl url = some ⟨RefKind.deck, t⟩ ∧ t ≠ [] ∧
        ∀ c ∈ t, isTokenChar c = true) ∧
    (¬ hasSeg deckSeg url → hasSeg collSeg url →
      ∃ t, parseMoxfieldUrl url = some ⟨RefKind.collection, t⟩ ∧ t ≠ [] ∧
        ∀ c ∈ t, isTokenChar c = true) ∧
    (¬ hasSeg deckSeg url → ¬ hasSeg collSeg url → parseMoxfieldUrl url = none) := by
  refine ⟨?_, ?_, ?_⟩
  · intro hdeck
    have hsome := findSegMatch_isSome_of_hasSeg deckSeg url hdeck
    cases hd : findSegMatch deckSeg url with
    | none => rw [hd] at hsome; simp at hsome
    | some t =>
      obtain ⟨-, hne, hall⟩ := hasSeg_of_findSegMatch deckSeg url t hd
      exact ⟨t, by rw [parseMoxfieldUrl, hd], hne, hall⟩
  · intro hnodeck hcoll
    cases hd : findSegMatch deckSeg url with
    | some t => exact absurd (hasSeg_of_findSegMatch deckSeg url t hd).1 hnodeck
    | none =>
      have hsome := findSegMatch_isSome_of_hasSeg collSeg url hcoll
      cases hc : findSegMatch collSeg url with
      | none => rw [hc] at hsome; simp at hsome
      | some t =>
        obtain ⟨-, hne, hall⟩ := hasSeg_of_findSegMatch collSeg url t hc
        exact ⟨t, by rw [parseMoxfieldUrl, hd, hc], hne, hall⟩
  · intro hnodeck hnocoll
    cases hd : findSegMatch deckSeg url with
    | some t => exact absurd (hasSeg_of_findSegMatch deckSeg url t hd).1 hnodeck
    | none =>
      cases hc : findSegMatch collSeg url with
      | some t => exact absurd (hasSeg_of_findSegMatch collSeg url t hc).1 hnocoll
      | none => rw [parseMoxfieldUrl, hd, hc]

/-- Witness for C7: a concrete deck URL classifies as a deck reference. -/
theorem parseMoxfieldUrl_classification_w :
    ∃ t, parseMoxfieldUrl "https://moxfield.com/decks/aBc_1-23".toList
        = some ⟨RefKind.deck, t⟩ ∧ t ≠ [] ∧ ∀ c ∈ t, isTokenChar c = true :=
  (parseMoxfieldUrl_classification "https://moxfield.com/decks/aBc_1-23".toList).1
    ⟨"https://moxfield.com".toList, 'a', "Bc_1-23".toList, by decide, by decide⟩

/-- Evaluation of `a || b || []` over two optional array fields: in JS an array is always
truthy (even `[]`), so only a missing/null field falls through. -/
def jsListOr (a b : Option (List String)) : List String :=
  match a with
  | some l => l
  | none =>
    match b with
    | some l => l
    | none => []

/-- The nested `card` detail object of one deck-document entry, with the
fields `fetchDeck` reads from it. -/
structure NestedCard where
  set : Option String
  setName : Option String
  cn : Option String
  finishes : Option (List String)
  scryfall_id : Option String
  scryfallId : Option String
  deriving DecidableEq, Repr

/-- One value of a deck section's name→detail mapping.  Besides the fields
the source reads, it carries the top-level sibling printing fields so that
claims about falling back to them can be stated. -/
structure DeckEntry where
  quantity : Option Nat
  card : Option NestedCard
  set : Option String
  setName : Option String
  cn : Option String
  finishes : Option (List String)
  scryfall_id : Option String
  deriving DecidableEq, Repr

/-- The deck document: five optional sections (`none` covers both an absent
section and a non-object one, which the source skips). -/
structure DeckDoc where
  mainboard : Option (List (String × DeckEntry))
  sideboard : Option (List (String × DeckEntry))
  commanders : Option (List (String × DeckEntry))
  considering : Option (List (String × DeckEntry))
  maybeboard : Option (List (String × DeckEntry))
  deriving DecidableEq, Repr

/-- The object literal `fetchDeck` pushes for one entry `[name, card]`:
`set`/`setName`/`cn` come from the nested card object with string defaults,
`finishes` from the nested object falling back to the top-level sibling,
`scryfallId` from the nested `scryfall_id` falling back to the nested
`scryfallId` key. -/
def mkDeckCard (name : String) (v : DeckEntry) : RawCardEntry :=
  let finishes := jsListOr (v.card.bind NestedCard.finishes) v.finishes
  { name := jsTrim name
    qty := v.quantity.getD 1
    set := jsStrOr (v.card.bind NestedCard.set) "unknown"
    setName := jsStrOr (v.card.bind NestedCard.setName) ""
    collectorNumber := jsStrOr (v.card.bind NestedCard.cn) ""
    finishes := finishes
    isFoil := finishes.contains "foil"
    scryfallId := jsStrOr (v.card.bind NestedCard.scryfall_id)
      (jsStrOr (v.card.bind NestedCard.scryfallId) "") }

/-- Entries contributed by one (possibly absent) section. -/
def sectionCards : Option (List (String × DeckEntry)) → List RawCardEntry
  | none => []
  | some entries => entries.map fun nv => mkDeckCard nv.1 nv.2

/-- Reader `fetchDeck` applied to an already-fetched deck document: the five
sections in source order, each entry mapped through the push literal. -/
def fetchDeck (doc : DeckDoc) : List RawCardEntry :=
  sectionCards doc.mainboard ++ sectionCards doc.sideboard ++ sectionCards doc.commanders
    ++ sectionCards doc.considering ++ sectionCards doc.maybeboard

def c4nested : NestedCard :=
  { set := none, setName := none, cn := none, finishes := none
    scryfall_id := none, scryfallId := none }

def c4entry : DeckEntry :=
  { quantity := some 4, card := some c4nested, set := some "lea"
    setName := some "Limited Edition Alpha", cn := some "161"
    finishes := some ["nonfoil"], scryfall_id := some "abc-123" }

def c4doc : DeckDoc :=
  { mainboard := some [("Lightning Bolt", c4entry)], sideboard := none
    commanders := none, considering := none, maybeboard := none }

/-- Counterexample to C4 as stated: in a deck entry whose nested card-detail
object lacks `set`, `cn` and `scryfall_id` while the sibling top-level
fields hold "lea", "161" and "abc-123", the reader does not fall back to the
siblings: it extracts `set = "unknown"`, `collectorNumber = ""` and
`scryfallId = ""`. -/
theorem fetchDeck_no_sibling_fallback :
    c4nested.set = none ∧ c4nested.cn = none ∧ c4nested.scryfall_id = none ∧
    c4entry.set = some "lea" ∧ c4entry.cn = some "161" ∧
    c4entry.scryfall_id = some "abc-123" ∧
    (fetchDeck c4doc).map RawCardEntry.set = ["unknown"] ∧
    (fetchDeck c4doc).map RawCardEntry.collectorNumber = [""] ∧
    (fetchDeck c4doc).map RawCardEntry.scryfallId = [""] ∧
    ("unknown" : String) ≠ "lea" ∧ ("" : String) ≠ "161" ∧
    ("" : String) ≠ "abc-123" := by
  decide

/-- C4 (amended): per deck entry, only `finishes` falls back to the sibling
top-level field when the nested card object lacks it; `set` defaults to
"unknown", `setName` and `collectorNumber` to `""`, and `scryfallId` falls
back to the nested `scryfallId` key and then `""`, never to a sibling. -/
theorem mkDeckCard_field_fallbacks (n : String) (v : DeckEntry) :
    (v.card.bind NestedCard.finishes = none →
      (mkDeckCard n v).finishes = v.finishes.getD []) ∧
    (v.card.bind NestedCard.set = none → (mkDeckCard n v).set = "unknown") ∧
    (v.card.bind NestedCard.setName = none → (mkDeckCard n v).setName = "") ∧
    (v.card.bind NestedCard.cn = none → (mkDeckCard n v).collectorNumber = "") ∧
    (v.card.bind NestedCard.scryfall_id = none →
      (mkDeckCard n v).scryfallId = jsStrOr (v.card.bind NestedCard.scryfallId) "") := by
  refine ⟨fun h => ?_, fun h => ?_, fun h => ?_, fun h => ?_, fun h => ?_⟩
  · simp only [mkDeckCard, jsListOr, h]
    cases v.finishes <;> simp
  · simp [mkDeckCard, jsStrOr, h]
  · simp [mkDeckCard, jsStrOr, h]
  · simp [mkDeckCard, jsStrOr, h]
  · simp [mkDeckCard, jsStrOr, h]

def c4wEntry : DeckEntry :=
  { quantity := none, card := none, set := none, setName := none, cn := none
    finishes := some ["etched"], scryfall_id := none }

/-- Witness for the amended C4 at a concrete entry with no nested card
object. -/
theorem mkDeckCard_field_fallbacks_w :
    (mkDeckCard "Bolt" c4wEntry).finishes = c4wEntry.finishes.getD [] ∧
    (mkDeckCard "Bolt" c4wEntry).set = "unknown" ∧
    (mkDeckCard "Bolt" c4wEntry).setName = "" ∧
    (mkDeckCard "Bolt" c4wEntry).collectorNumber = "" ∧
    (mkDeckCard "Bolt" c4wEntry).scryfallId
      = jsStrOr (c4wEntry.card.bind NestedCard.scryfallId) "" :=
  ⟨(mkDeckCard_field_fallbacks "Bolt" c4wEntry).1 rfl,
   (mkDeckCard_field_fallbacks "Bolt" c4wEntry).2.1 rfl,
   (mkDeckCard_field_fallbacks "Bolt" c4wEntry).2.2.1 rfl,
   (mkDeckCard_field_fallbacks "Bolt" c4wEntry).2.2.2.1 rfl,
   (mkDeckCard_field_fallbacks "Bolt" c4wEntry).2.2.2.2 rfl⟩

/-- Observable actions of the price pass: outbound HTTP calls and timed
pauses. -/
inductive PEvent where
  | netCall (url : String)
  | slept (ms : Nat)
  deriving DecidableEq, Repr

/-- The nested `prices` object of a pricing-API response. -/
structure PriceFields where
  usd_foil : Option String
  usd : Option String
  deriving DecidableEq, Repr

/-- A parsed pricing-API response body. -/
structure PriceData where
  prices : Option PriceFields
  deriving DecidableEq, Repr

/-- Guard `!scryfallId && (!set || !collectorNumber)` at the top of
`fetchPrice` (empty strings are the falsy case for these fields). -/
def skipsPrice (scryfallId set collectorNumber : String) : Bool :=
  scryfallId == "" && (set == "" || collectorNumber == "")

/-- Price selection `data.prices?.usd_foil || data.prices?.usd || null`. -/
def jsPriceOr (a b : Option String) : Option String :=
  if jsTruthy a then a else if jsTruthy b then b else none

/-- The URL `fetchPrice` queries: by Scryfall id when present, else by
set and collector number. -/
def priceUrl (scryfallId set collectorNumber : String) : String :=
  if scryfallId ≠ "" then "https://api.scryfall.com/cards/" ++ scryfallId
  else "https://api.scryfall.com/cards/" ++ set ++ "/" ++ collectorNumber

/-- Model of `fetchPrice` against the response its single `httpGet` would give:
skip (no call, no pause) when both identifiers are missing; otherwise issue
the call; on a thrown error the catch returns null — control never reaches
`await sleep(100)`, so no pause is recorded; on a response, extract the
preferred price field and pause 100 ms before returning. -/
def fetchPrice (scryfallId set collectorNumber : String)
    (response : Except HErr PriceData) : Option String × List PEvent :=
  if skipsPrice scryfallId set collectorNumber then (none, [])
  else
    match response with
    | Except.error _ => (none, [PEvent.netCall (priceUrl scryfallId set collectorNumber)])
    | Except.ok data =>
      (jsPriceOr (data.prices.bind PriceFields.usd_foil) (data.prices.bind PriceFields.usd),
        [PEvent.netCall (priceUrl scryfallId set collectorNumber), PEvent.slept 100])

/-- Counterexample to C5 as stated: at a concrete printing with a Scryfall
id, when the HTTP layer throws, the attempted query's trace holds the
outbound call but no 100 ms pause — the pause is not performed "regardless
of the query's outcome". -/
theorem fetchPrice_no_pause_on_throw :
    (fetchPrice "abc" "" "" (Except.error HErr.transport)).2
      = [PEvent.netCall (priceUrl "abc" "" "")] ∧
    PEvent.slept 100 ∉ (fetchPrice "abc" "" "" (Except.error HErr.transport)).2 := by
  constructor
  · rfl
  · intro hmem
    rw [show (fetchPrice "abc" "" "" (Except.error HErr.transport)).2
        = [PEvent.netCall (priceUrl "abc" "" "")] from rfl] at hmem
    simp at hmem

/-- C5 (amended): every attempted (non-skipped) price query whose HTTP fetch
returns a response is followed by the fixed 100 ms pause whether or not a
usable price results; but when the HTTP layer throws, the catch returns
immediately and no pause occurs. -/
theorem fetchPrice_pause_accounting (scryfallId set collectorNumber : String)
    (response : Except HErr PriceData)
    (h : skipsPrice scryfallId set collectorNumber = false) :
    (∀ data, response = Except.ok data →
      (fetchPrice scryfallId set collectorNumber response).2
        = [PEvent.netCall (priceUrl scryfallId set collectorNumber), PEvent.slept 100]) ∧
    (∀ e, response = Except.error e →
      (fetchPrice scryfallId set collectorNumber response).2
        = [PEvent.netCall (priceUrl scryfallId set collectorNumber)]) := by
  constructor
  · intro data hresp
    subst hresp
    simp [fetchPrice, h]
  · intro e hresp
    subst hresp
    simp [fetchPrice, h]

/-- Witness for the amended C5: both outcomes at a concrete query. -/
theorem fetchPrice_pause_accounting_w :
    (fetchPrice "abc" "" "" (Except.ok ⟨some ⟨none, some "0.42"⟩⟩)).2
      = [PEvent.netCall (priceUrl "abc" "" ""), PEvent.slept 100] ∧
    (fetchPrice "abc" "" "" (Except.error HErr.transport)).2
      = [PEvent.netCall (priceUrl "abc" "" "")] :=
  ⟨(fetchPrice_pause_accounting "abc" "" "" (Except.ok ⟨some ⟨none, some "0.42"⟩⟩) rfl).1
      ⟨some ⟨none, some "0.42"⟩⟩ rfl,
   (fetchPrice_pause_accounting "abc" "" "" (Except.error HErr.transport) rfl).2
      HErr.transport rfl⟩

/-- The mutable counters of the enrichment loop in `main`, plus the index of
the next response the oracle serves (one per attempted call). -/
structure PassCounters where
  k : Nat
  fetched : Nat
  total : Nat
  deriving DecidableEq, Repr

/-- Skip test of `fetchPrice` applied to a stored printing (the enrichment
loop passes `printing.scryfallId, printing.set, printing.collectorNumber`). -/
def skipsPrinting (p : Printing) : Bool :=
  skipsPrice p.scryfallId p.set p.collectorNumber

/-- Innermost enrichment loop over one owner's printing list:
`pricesTotal++`, call `fetchPrice`, store the price when one came back
(`pricesFetched++`).  The oracle index advances only on attempted calls. -/
def enrichPrintings (resp : Nat → Except HErr PriceData) :
    List Printing → PassCounters → List Printing × List PEvent × PassCounters
  | [], st => ([], [], st)
  | p :: ps, st =>
    let r := fetchPrice p.scryfallId p.set p.collectorNumber (resp st.k)
    let p' := if r.1.isSome then { p with price := r.1 } else p
    let st' : PassCounters :=
      { k := st.k + (if skipsPrinting p then 0 else 1)
        fetched := st.fetched + (if r.1.isSome then 1 else 0)
        total := st.total + 1 }
    let out := enrichPrintings resp ps st'
    (p' :: out.1, r.2 ++ out.2.1, out.2.2)

/-- Middle enrichment loop over one card's owners. -/
def enrichOwners (resp : Nat → Except HErr PriceData) :
    List (String × List Printing) → PassCounters →
      List (String × List Printing) × List PEvent × PassCounters
  | [], st => ([], [], st)
  | (o, ps) :: rest, st =>
    let a := enrichPrintings resp ps st
    let b := enrichOwners resp rest a.2.2
    ((o, a.1) :: b.1, a.2.1 ++ b.2.1, b.2.2)

/-- Outer enrichment loop over `Object.entries(cardsMap)`. -/
def enrichMap (resp : Nat → Except HErr PriceData) :
    CardsMap → PassCounters → CardsMap × List PEvent × PassCounters
  | [], st => ([], [], st)
  | (key, agg) :: rest, st =>
    let a := enrichOwners resp agg.owners st
    let b := enrichMap resp rest a.2.2
    ((key, { agg with owners := a.1 }) :: b.1, a.2.1 ++ b.2.1, b.2.2)

def countNetCalls : List PEvent → Nat
  | [] => 0
  | PEvent.netCall _ :: rest => countNetCalls rest + 1
  | PEvent.slept _ :: rest => countNetCalls rest

/-- Number of printings in a list that would be attempted (not skipped). -/
def countAttemptsL (ps : List Printing) : Nat :=
  (ps.filter fun p => !skipsPrinting p).length

def countAttemptsO (os : List (String × List Printing)) : Nat :=
  (os.map fun o => countAttemptsL o.2).sum

def countAttemptsM (m : CardsMap) : Nat :=
  (m.map fun kv => countAttemptsO kv.2.owners).sum

def countPrintingsO (os : List (String × List Printing)) : Nat :=
  (os.map fun o => o.2.length).sum

def countPrintingsM (m : CardsMap) : Nat :=
  (m.map fun kv => countPrintingsO kv.2.owners).sum

theorem countNetCalls_append (l₁ l₂ : List PEvent) :
    countNetCalls (l₁ ++ l₂) = countNetCalls l₁ + countNetCalls l₂ := by
  induction l₁ with
  | nil => simp [countNetCalls]
  | cons e rest ih =>
    cases e
    · simp [countNetCalls, ih]; omega
    · simp [countNetCalls, ih]

theorem fetchPrice_of_skip (scryfallId set collectorNumber : String)
    (r : Except HErr PriceData) (h : skipsPrice scryfallId set collectorNumber = true) :
    fetchPrice scryfallId set collectorNumber r = (none, []) := by
  simp [fetchPrice, h]

theorem countNetCalls_fetchPrice (scryfallId set collectorNumber : String)
    (r : Except HErr PriceData) :
    countNetCalls (fetchPrice scryfallId set collectorNumber r).2
      = if skipsPrice scryfallId set collectorNumber then 0 else 1 := by
  by_cases h : skipsPrice scryfallId set collectorNumber <;>
    cases r <;> simp [fetchPrice, h, countNetCalls]

theorem enrichPrintings_spec (resp : Nat → Except HErr PriceData) (ps : List Printing) :
    ∀ st : PassCounters,
      (enrichPrintings resp ps st).1.length = ps.length ∧
      (∀ i p₀, ps.get? i = some p₀ → skipsPrinting p₀ = true →
        (enrichPrintings resp ps st).1.get? i = some p₀) ∧
      countNetCalls (enrichPrintings resp ps st).2.1 = countAttemptsL ps ∧
      (enrichPrintings resp ps st).2.2.total = st.total + ps.length ∧
      (enrichPrintings resp ps st).2.2.fetched ≤ st.fetched + ps.length := by
  induction ps with
  | nil => intro st; simp [enrichPrintings, countNetCalls, countAttemptsL]
  | cons p ps ih =>
    intro st
    set r := fetchPrice p.scryfallId p.set p.collectorNumber (resp st.k) with hr
    set st' : PassCounters :=
      { k := st.k + (if skipsPrinting p then 0 else 1)
        fetched := st.fetched + (if r.1.isSome then 1 else 0)
        total := st.total + 1 } with hst'
    have hunfold : enrichPrintings resp (p :: ps) st
        = ((if r.1.isSome then { p with price := r.1 } else p) :: (enrichPrintings resp ps st').1,
            r.2 ++ (enrichPrintings resp ps st').2.1,
            (enrichPrintings resp ps st').2.2) := rfl
    obtain ⟨ihlen, ihskip, ihnet, ihtot, ihfetch⟩ := ih st'
    refine ⟨?_, ?_, ?_, ?_, ?_⟩
    · rw [hunfold]; simp [ihlen]
    · intro i p₀ hget hskip
      rw [hunfold]
      match i with
      | 0 =>
        have hp : p = p₀ := by simpa using hget
        have hpnone : r.1 = none := by
          have hskip' : skipsPrice p.scryfallId p.set p.collectorNumber = true := by
            simpa [skipsPrinting, hp] using hskip
          rw [hr, fetchPrice_of_skip _ _ _ _ hskip']
        simp [hpnone, hp]
      | Nat.succ j =>
        simpa using ihskip j p₀ (by simpa using hget) hskip
    · rw [hunfold]
      simp only [countNetCalls_append, ihnet]
      rw [hr, countNetCalls_fetchPrice]
      simp only [countAttemptsL, List.filter_cons, skipsPrinting]
      by_cases h : skipsPrice p.scryfallId p.set p.collectorNumber
      · simp [h, countAttemptsL]
      · simp [h, countAttemptsL]; omega
    · rw [hunfold]
      rw [ihtot, hst']
      simp; omega
    · rw [hunfold]
      refine le_trans ihfetch ?_
      rw [hst']
      have : (if r.1.isSome then 1 else 0) ≤ 1 := by split <;> omega
      simp; omega

theorem enrichOwners_spec (resp : Nat → Except HErr PriceData)
    (os : List (String × List Printing)) :
    ∀ st : PassCounters,
      (∀ o ps, assocFind os o = some ps →
        ∃ ps', assocFind (enrichOwners resp os st).1 o = some ps' ∧
          ps'.length = ps.length ∧
          (∀ i p₀, ps.get? i = some p₀ → skipsPrinting p₀ = true → ps'.get? i = some p₀)) ∧
      countNetCalls (enrichOwners resp os st).2.1 = countAttemptsO os ∧
      (enrichOwners resp os st).2.2.total = st.total + countPrintingsO os ∧
      (enrichOwners resp os st).2.2.fetched ≤ st.fetched + countPrintingsO os := by
  induction os with
  | nil =>
    intro st
    refine ⟨?_, ?_, ?_, ?_⟩
    · intro o ps h; simp [assocFind] at h
    · simp [enrichOwners, countNetCalls, countAttemptsO]
    · simp [enrichOwners, countPrintingsO]
    · simp [enrichOwners, countPrintingsO]
  | cons ops rest ih =>
    intro st
    obtain ⟨o, ps⟩ := ops
    obtain ⟨plen, pskip, pnet, ptot, pfetch⟩ := enrichPrintings_spec resp ps st
    obtain ⟨ifind, inet, itot, ifetch⟩ := ih (enrichPrintings resp ps st).2.2
    have hunfold : enrichOwners resp ((o, ps) :: rest) st
        = ((o, (enrichPrintings resp ps st).1) :: (enrichOwners resp rest (enrichPrintings resp ps st).2.2).1,
            (enrichPrintings resp ps st).2.1 ++ (enrichOwners resp rest (enrichPrintings resp ps st).2.2).2.1,
            (enrichOwners resp rest (enrichPrintings resp ps st).2.2).2.2) := rfl
    refine ⟨?_, ?_, ?_, ?_⟩
    · intro o' ps' hfind
      rw [hunfold]
      by_cases ho : o = o'
      · rw [assocFind, if_pos ho]
        rw [assocFind, if_pos ho] at hfind
        obtain rfl : ps = ps' := by simpa using hfind
        exact ⟨(enrichPrintings resp ps st).1, rfl, plen, pskip⟩
      · rw [assocFind, if_neg ho]
        rw [assocFind, if_neg ho] at hfind
        exact ifind o' ps' hfind
    · rw [hunfold]
      simp only [countNetCalls_append, pnet, inet, countAttemptsO, List.map_cons, List.sum_cons]
    · rw [hunfold]
      simp only [itot, ptot, countPrintingsO, List.map_cons, List.sum_cons]
      omega
    · rw [hunfold]
      refine le_trans ifetch ?_
      simp only [countPrintingsO, List.map_cons, List.sum_cons]
      omega

theorem enrichMap_spec (resp : Nat → Except HErr PriceData) (m : CardsMap) :
    ∀ st : PassCounters,
      (∀ key agg, assocFind m key = some agg →
        ∃ agg', assocFind (enrichMap resp m st).1 key = some agg' ∧
          agg'.name = agg.name ∧
          (∀ o ps, assocFind agg.owners o = some ps →
            ∃ ps', assocFind agg'.owners o = some ps' ∧
              ps'.length = ps.length ∧
              (∀ i p₀, ps.get? i = some p₀ → skipsPrinting p₀ = true →
                ps'.get? i = some p₀))) ∧
      countNetCalls (enrichMap resp m st).2.1 = countAttemptsM m ∧
      (enrichMap resp m st).2.2.total = st.total + countPrintingsM m ∧
      (enrichMap resp m st).2.2.fetched ≤ st.fetched + countPrintingsM m := by
  induction m with
  | nil =>
    intro st
    refine ⟨?_, ?_, ?_, ?_⟩
    · intro key agg h; simp [assocFind] at h
    · simp [enrichMap, countNetCalls, countAttemptsM]
    · simp [enrichMap, countPrintingsM]
    · simp [enrichMap, countPrintingsM]
  | cons kagg rest ih =>
    intro st
    obtain ⟨key, agg⟩ := kagg
    obtain ⟨ofind, onet, otot, ofetch⟩ := enrichOwners_spec resp agg.owners st
    obtain ⟨ifind, inet, itot, ifetch⟩ := ih (enrichOwners resp agg.owners st).2.2
    have hunfold : enrichMap resp ((key, agg) :: rest) st
        = ((key, { agg with owners := (enrichOwners resp agg.owners st).1 })
              :: (enrichMap resp rest (enrichOwners resp agg.owners st).2.2).1,
            (enrichOwners resp agg.owners st).2.1
              ++ (enrichMap resp rest (enrichOwners resp agg.owners st).2.2).2.1,
            (enrichMap resp rest (enrichOwners resp agg.owners st).2.2).2.2) := rfl
    refine ⟨?_, ?_, ?_, ?_⟩
    · intro key' agg' hfind
      rw [hunfold]
      by_cases hk : key = key'
      · rw [assocFind, if_pos hk]
        rw [assocFind, if_pos hk] at hfind
        obtain rfl : agg = agg' := by simpa using hfind
        exact ⟨_, rfl, rfl, ofind⟩
      · rw [assocFind, if_neg hk]
        rw [assocFind, if_neg hk] at hfind
        exact ifind key' agg' hfind
    · rw [hunfold]
      simp only [countNetCalls_append, onet, inet, countAttemptsM, List.map_cons, List.sum_cons]
    · rw [hunfold]
      simp only [itot, otot, countPrintingsM, List.map_cons, List.sum_cons]
      omega
    · rw [hunfold]
      refine le_trans ifetch ?_
      simp only [countPrintingsM, List.map_cons, List.sum_cons]
      omega

/-- C6: a printing lacking a Scryfall id and lacking a complete
(set, collector-number) pair is left untouched by the enrichment pass — its
price is still null afterwards — and no network call is made for it: across
the whole pass the number of outbound calls equals the number of
non-skipped printings. -/
theorem price_skip_rule (resp : Nat → Except HErr PriceData) (m : CardsMap)
    (st : PassCounters) (key owner : String) (agg : CardAggregate)
    (ps : List Printing) (i : Nat) (p₀ : Printing)
    (hagg : assocFind m key = some agg)
    (hps : assocFind agg.owners owner = some ps)
    (hget : ps.get? i = some p₀)
    (hskip : skipsPrinting p₀ = true)
    (hnull : p₀.price = none) :
    (∃ agg' ps', assocFind (enrichMap resp m st).1 key = some agg' ∧
      assocFind agg'.owners owner = some ps' ∧
      ps'.get? i = some p₀ ∧ p₀.price = none) ∧
    countNetCalls (enrichMap resp m st).2.1 = countAttemptsM m := by
  obtain ⟨hfind, hnet, -, -⟩ := enrichMap_spec resp m st
  obtain ⟨agg', hagg', -, howners⟩ := hfind key agg hagg
  obtain ⟨ps', hps', -, hpt⟩ := howners owner ps hps
  exact ⟨⟨agg', ps', hagg', hps', hpt i p₀ hget hskip, hnull⟩, hnet⟩

def c6skip : Printing :=
  { qty := 1, set := "lea", setName := "Limited Edition Alpha", isFoil := false
    collectorNumber := "", scryfallId := "", price := none }

def c6go : Printing :=
  { qty := 2, set := "mh3", setName := "Modern Horizons 3", isFoil := true
    collectorNumber := "62", scryfallId := "abc", price := none }

def c6map : CardsMap :=
  [("lightning bolt", { name := "Lightning Bolt", owners := [("Fausto", [c6skip, c6go])] })]

/-- Witness for C6 on a concrete map holding one skipped and one attempted
printing, against an always-throwing price API. -/
theorem price_skip_rule_w :
    (∃ agg' ps',
      assocFind (enrichMap (fun _ => Except.error HErr.transport) c6map ⟨0, 0, 0⟩).1
          "lightning bolt" = some agg' ∧
      assocFind agg'.owners "Fausto" = some ps' ∧
      ps'.get? 0 = some c6skip ∧ c6skip.price = none) ∧
    countNetCalls (enrichMap (fun _ => Except.error HErr.transport) c6map ⟨0, 0, 0⟩).2.1
      = countAttemptsM c6map :=
  price_skip_rule (fun _ => Except.error HErr.transport) c6map ⟨0, 0, 0⟩
    "lightning bolt" "Fausto" { name := "Lightning Bolt", owners := [("Fausto", [c6skip, c6go])] }
    [c6skip, c6go] 0 c6skip rfl rfl rfl rfl rfl

/-- JS arithmetic as needed by the summary line: rationals extended with the
Infinity and NaN that JS division by zero produces. -/
inductive JsNum where
  | num (q : ℚ)
  | inf
  | nan
  deriving DecidableEq, Repr

/-- JS `a / b` on the summary's nonnegative integer counters: `x/0` is
Infinity for `x ≠ 0` and NaN for `0/0`. -/
def jsDiv (a b : Nat) : JsNum :=
  if b = 0 then (if a = 0 then JsNum.nan else JsNum.inf)
  else JsNum.num ((a : ℚ) / (b : ℚ))

/-- JS `x * n` for a literal natural factor, propagating NaN (and
`Infinity * 0 = NaN`). -/
def jsMulNat (x : JsNum) (n : Nat) : JsNum :=
  match x with
  | JsNum.num q => JsNum.num (q * n)
  | JsNum.inf => if n = 0 then JsNum.nan else JsNum.inf
  | JsNum.nan => JsNum.nan

/-- The summary expression `(pricesFetched / pricesTotal) * 100`, exactly as
written — no guard on `pricesTotal`. -/
def summaryPercent (pricesFetched pricesTotal : Nat) : JsNum :=
  jsMulNat (jsDiv pricesFetched pricesTotal) 100

/-- C9: the end-of-run percentage divides the fetched count by the total
printing count with no zero guard: on an aggregate with zero printings the
enrichment pass ends with `pricesTotal = 0` and the summary expression
performs the division with denominator 0 (yielding NaN, from `0/0`). -/
theorem summary_zero_denominator (resp : Nat → Except HErr PriceData) (m : CardsMap)
    (h : countPrintingsM m = 0) :
    (enrichMap resp m ⟨0, 0, 0⟩).2.2.total = 0 ∧
    (enrichMap resp m ⟨0, 0, 0⟩).2.2.fetched = 0 ∧
    summaryPercent (enrichMap resp m ⟨0, 0, 0⟩).2.2.fetched
        (enrichMap resp m ⟨0, 0, 0⟩).2.2.total = JsNum.nan := by
  obtain ⟨-, -, htot, hfetch⟩ := enrichMap_spec resp m ⟨0, 0, 0⟩
  rw [h] at htot hfetch
  have htot' : (enrichMap resp m ⟨0, 0, 0⟩).2.2.total = 0 := htot
  rw [show (⟨0, 0, 0⟩ : PassCounters).fetched = 0 from rfl] at hfetch
  have hfetch' : (enrichMap resp m ⟨0, 0, 0⟩).2.2.fetched = 0 := by omega
  refine ⟨htot', hfetch', ?_⟩
  rw [htot', hfetch']
  rfl

def c9map : CardsMap :=
  [("lightning bolt", { name := "Lightning Bolt", owners := [("Fausto", [])] })]

/-- Witness for C9 on a concrete aggregate whose only owner entry holds an
empty printing list. -/
theorem summary_zero_denominator_w :
    (enrichMap (fun _ => Except.error HErr.transport) c9map ⟨0, 0, 0⟩).2.2.total = 0 ∧
    (enrichMap (fun _ => Except.error HErr.transport) c9map ⟨0, 0, 0⟩).2.2.fetched = 0 ∧
    summaryPercent (enrichMap (fun _ => Except.error HErr.transport) c9map ⟨0, 0, 0⟩).2.2.fetched
        (enrichMap (fun _ => Except.error HErr.transport) c9map ⟨0, 0, 0⟩).2.2.total
      = JsNum.nan :=
  summary_zero_denominator (fun _ => Except.error HErr.transport) c9map rfl

/-- Owner record `{ name, phone, cardCount }` as stored in `ownersMap`. -/
structure Owner where
  name : String
  phone : String
  cardCount : Nat
  deriving DecidableEq, Repr

/-- One entry of `config.sources`: new format carries `urls`, legacy format
a single `url`. -/
structure Source where
  owner : String
  url : Option String
  urls : Option (List String)
  deriving DecidableEq, Repr

/-- The parts of `config.json` the main loop reads. -/
structure Config where
  sources : List Source
  phoneSecretNames : List (String × String)
  deriving DecidableEq, Repr

/-- The `ownersMap` object. -/
abbrev OwnersMap := List (String × Owner)

/-- Phone resolution `config.phoneSecretNames?.[owner]` then `process.env[secretKey] || ''`
(an empty or missing secret name, and an unset variable, all give `""`). -/
def resolvePhone (cfg : Config) (env : String → Option String) (owner : String) : String :=
  match assocFind cfg.phoneSecretNames owner with
  | some secretKey => if secretKey = "" then "" else (env secretKey).getD ""
  | none => ""

/-- URL-list resolution `src.urls ? src.urls : (src.url ? [src.url] : [])` — an array, even
empty, is truthy; a missing or empty `url` string contributes nothing. -/
def resolvedUrls (src : Source) : List String :=
  match src.urls with
  | some us => us
  | none =>
    match src.url with
    | some u => if u = "" then [] else [u]
    | none => []

/-- Registration step `if (!ownersMap[src.owner]) ownersMap[src.owner] = ...`
with a fresh record (name, phone, cardCount 0) — it happens before the
source's URLs are walked. -/
def registerOwner (cfg : Config) (env : String → Option String) (om : OwnersMap)
    (w : String) : OwnersMap :=
  match assocFind om w with
  | some _ => om
  | none => om ++ [(w, { name := w, phone := resolvePhone cfg env w, cardCount := 0 })]

/-- Count bump `ownersMap[src.owner].cardCount += cards.length` — in-place update of
the unique entry keyed by the owner. -/
def bumpCardCount : OwnersMap → String → Nat → OwnersMap
  | [], _, _ => []
  | (k, o) :: rest, w, n =>
    if k = w then (k, { o with cardCount := o.cardCount + n }) :: rest
    else (k, o) :: bumpCardCount rest w n

/-- The per-URL body of the main loop: classify; on failure skip; fetch via
the given oracle; on failure skip; otherwise bump the owner's raw card count
and merge every fetched entry. -/
def processUrl (fetchO : ParsedRef → Except String (List RawCardEntry)) (owner : String)
    (acc : OwnersMap × CardsMap) (u : String) : OwnersMap × CardsMap :=
  match parseMoxfieldUrl u.toList with
  | none => acc
  | some ref =>
    match fetchO ref with
    | Except.error _ => acc
    | Except.ok cards =>
      (bumpCardCount acc.1 owner cards.length,
        cards.foldl (fun m c => mergeCard m owner c) acc.2)

/-- The per-source body of the main loop: register the owner, then walk the
source's URLs. -/
def processSource (cfg : Config) (env : String → Option String)
    (fetchO : ParsedRef → Except String (List RawCardEntry))
    (acc : OwnersMap × CardsMap) (src : Source) : OwnersMap × CardsMap :=
  (resolvedUrls src).foldl (processUrl fetchO src.owner)
    (registerOwner cfg env acc.1 src.owner, acc.2)

/-- The fetch-and-merge phase of `main` over all configured sources. -/
def runSources (cfg : Config) (env : String → Option String)
    (fetchO : ParsedRef → Except String (List RawCardEntry)) : OwnersMap × CardsMap :=
  cfg.sources.foldl (processSource cfg env fetchO) ([], [])

/-- Every URL of the source either fails to classify or fails to fetch
(vacuously true for a source with no URLs). -/
def allUrlsFail (fetchO : ParsedRef → Except String (List RawCardEntry))
    (src : Source) : Prop :=
  ∀ u ∈ resolvedUrls src, parseMoxfieldUrl u.toList = none ∨
    ∃ ref msg, parseMoxfieldUrl u.toList = some ref ∧ fetchO ref = Except.error msg

theorem assocFind_append_of_none {α : Type} (m : List (String × α)) (k : String) (v : α)
    (h : assocFind m k = none) : assocFind (m ++ [(k, v)]) k = some v := by
  induction m with
  | nil => simp [assocFind]
  | cons kv rest ih =>
    rw [assocFind] at h
    by_cases hk : kv.1 = k
    · rw [if_pos hk] at h; exact absurd h (by simp)
    · rw [if_neg hk] at h
      obtain ⟨k', v'⟩ := kv
      simpa [assocFind, hk] using ih h

theorem assocFind_append_ne {α : Type} (m : List (String × α)) (k k' : String) (v : α)
    (h : k' ≠ k) : assocFind (m ++ [(k', v)]) k = assocFind m k := by
  induction m with
  | nil => simp [assocFind, h]
  | cons kv rest ih =>
    obtain ⟨k₀, v₀⟩ := kv
    by_cases hk : k₀ = k
    · simp [assocFind, hk]
    · simpa [assocFind, hk] using ih

theorem assocFind_bump_ne (om : OwnersMap) (w w' : String) (n : Nat) (h : w' ≠ w) :
    assocFind (bumpCardCount om w' n) w = assocFind om w := by
  induction om with
  | nil => rfl
  | cons kv rest ih =>
    obtain ⟨k₀, o₀⟩ := kv
    by_cases hk' : k₀ = w'
    · have hk : ¬ k₀ = w := by rw [hk']; exact h
      rw [bumpCardCount, if_pos hk', assocFind, assocFind, if_neg hk, if_neg hk]
    · rw [bumpCardCount, if_neg hk', assocFind, assocFind]
      by_cases hk : k₀ = w
      · rw [if_pos hk, if_pos hk]
      · rw [if_neg hk, if_neg hk]; exact ih

theorem registerOwner_find_self (cfg : Config) (env : String → Option String)
    (om : OwnersMap) (w : String) :
    assocFind (registerOwner cfg env om w) w
      = some ((assocFind om w).getD { name := w, phone := resolvePhone cfg env w, cardCount := 0 }) := by
  rw [registerOwner]
  cases h : assocFind om w with
  | some o => simpa using h
  | none => simpa using assocFind_append_of_none om w _ h

theorem registerOwner_find_ne (cfg : Config) (env : String → Option String)
    (om : OwnersMap) (w w' : String) (h : w' ≠ w) :
    assocFind (registerOwner cfg env om w') w = assocFind om w := by
  rw [registerOwner]
  cases assocFind om w' with
  | some o => rfl
  | none => exact assocFind_append_ne om w w' _ h

theorem processUrl_of_fail (fetchO : ParsedRef → Except String (List RawCardEntry))
    (o : String) (acc : OwnersMap × CardsMap) (u : String)
    (h : parseMoxfieldUrl u.toList = none ∨
      ∃ ref msg, parseMoxfieldUrl u.toList = some ref ∧ fetchO ref = Except.error msg) :
    processUrl fetchO o acc u = acc := by
  rcases h with h | ⟨ref, msg, href, herr⟩
  · have h' : parseMoxfieldUrl u.data = none := h
    simp [processUrl, h']
  · have href' : parseMoxfieldUrl u.data = some ref := href
    simp [processUrl, href', herr]

theorem foldl_processUrl_of_fail (fetchO : ParsedRef → Except String (List RawCardEntry))
    (o : String) (urls : List String)
    (hf : ∀ u ∈ urls, parseMoxfieldUrl u.toList = none ∨
      ∃ ref msg, parseMoxfieldUrl u.toList = some ref ∧ fetchO ref = Except.error msg) :
    ∀ acc, urls.foldl (processUrl fetchO o) acc = acc := by
  induction urls with
  | nil => intro acc; rfl
  | cons u rest ih =>
    intro acc
    rw [List.foldl_cons, processUrl_of_fail fetchO o acc u (hf u (by simp))]
    exact ih (fun u' hu' => hf u' (by simp [hu'])) acc

theorem processUrl_find_ne (fetchO : ParsedRef → Except String (List RawCardEntry))
    (o : String) (acc : OwnersMap × CardsMap) (u : String) (w : String) (h : o ≠ w) :
    assocFind (processUrl fetchO o acc u).1 w = assocFind acc.1 w := by
  cases hp : parseMoxfieldUrl u.data with
  | none => simp [processUrl, hp]
  | some ref =>
    cases hf : fetchO ref with
    | error msg => simp [processUrl, hp, hf]
    | ok cards => simp [processUrl, hp, hf, assocFind_bump_ne acc.1 w o cards.length h]

theorem foldl_processUrl_find_ne (fetchO : ParsedRef → Except String (List RawCardEntry))
    (o : String) (urls : List String) (w : String) (h : o ≠ w) :
    ∀ acc, assocFind (urls.foldl (processUrl fetchO o) acc).1 w = assocFind acc.1 w := by
  induction urls with
  | nil => intro acc; rfl
  | cons u rest ih =>
    intro acc
    rw [List.foldl_cons, ih (processUrl fetchO o acc u)]
    exact processUrl_find_ne fetchO o acc u w h

theorem runSources_aux (cfg : Config) (env : String → Option String)
    (fetchO : ParsedRef → Except String (List RawCardEntry)) (w : String)
    (srcs : List Source)
    (hfail : ∀ s ∈ srcs, s.owner = w → allUrlsFail fetchO s) :
    ∀ acc : OwnersMap × CardsMap,
      ((assocFind acc.1 w = none ∧ ∃ s ∈ srcs, s.owner = w) ∨
        assocFind acc.1 w = some { name := w, phone := resolvePhone cfg env w, cardCount := 0 }) →
      assocFind (srcs.foldl (processSource cfg env fetchO) acc).1 w
        = some { name := w, phone := resolvePhone cfg env w, cardCount := 0 } := by
  induction srcs with
  | nil =>
    intro acc hinv
    rcases hinv with ⟨-, s, hs, -⟩ | hsome
    · exact absurd hs (by simp)
    · exact hsome
  | cons s rest ih =>
    intro acc hinv
    rw [List.foldl_cons]
    by_cases hw : s.owner = w
    · have hsfail : allUrlsFail fetchO s := hfail s (by simp) hw
      have hps : processSource cfg env fetchO acc s
          = (registerOwner cfg env acc.1 s.owner, acc.2) :=
        foldl_processUrl_of_fail fetchO s.owner (resolvedUrls s) hsfail _
      rw [hps]
      apply ih (fun s' hs' => hfail s' (by simp [hs']))
      right
      rw [hw, registerOwner_find_self]
      rcases hinv with ⟨hnone, -⟩ | hsome
      · rw [hnone]; rfl
      · rw [hsome]; rfl
    · have hfind : assocFind (processSource cfg env fetchO acc s).1 w = assocFind acc.1 w := by
        rw [processSource, foldl_processUrl_find_ne fetchO s.owner (resolvedUrls s) w hw]
        exact registerOwner_find_ne cfg env acc.1 w s.owner hw
      apply ih (fun s' hs' => hfail s' (by simp [hs']))
      rcases hinv with ⟨hnone, s', hs', hw'⟩ | hsome
      · left
        refine ⟨by rw [hfind]; exact hnone, s', ?_, hw'⟩
        rcases List.mem_cons.mp hs' with rfl | hmem
        · exact absurd hw' hw
        · exact hmem
      · right; rw [hfind]; exact hsome

theorem mem_values_of_assocFind {α : Type} (m : List (String × α)) (k : String) (v : α)
    (h : assocFind m k = some v) : v ∈ m.map Prod.snd := by
  induction m with
  | nil => simp [assocFind] at h
  | cons kv rest ih =>
    rw [assocFind] at h
    by_cases hk : kv.1 = k
    · rw [if_pos hk] at h
      simp [Option.some_inj.mp h]
    · rw [if_neg hk] at h
      simp [ih h]

/-- C10: an owner named by some configured source is registered (name, phone
resolved from the environment, cardCount 0) before its URLs are walked; so
when every URL of every source for that owner fails to classify or fetch —
including the case of no URLs at all — the owner still ends in the snapshot's
owners list with cardCount 0. -/
theorem owner_registered_despite_failures (cfg : Config) (env : String → Option String)
    (fetchO : ParsedRef → Except String (List RawCardEntry)) (w : String)
    (hexists : ∃ s ∈ cfg.sources, s.owner = w)
    (hfail : ∀ s ∈ cfg.sources, s.owner = w → allUrlsFail fetchO s) :
    assocFind (runSources cfg env fetchO).1 w
      = some { name := w, phone := resolvePhone cfg env w, cardCount := 0 } ∧
    ({ name := w, phone := resolvePhone cfg env w, cardCount := 0 } : Owner)
      ∈ (runSources cfg env fetchO).1.map Prod.snd := by
  have h := runSources_aux cfg env fetchO w cfg.sources hfail ([], [])
    (Or.inl ⟨rfl, hexists⟩)
  exact ⟨h, mem_values_of_assocFind _ w _ h⟩

def c10src : Source :=
  { owner := "Irene", url := none
    urls := some ["https://example.com/cards", "https://moxfield.com/decks/bad1"] }

def c10cfg : Config :=
  { sources := [c10src], phoneSecretNames := [("Irene", "PHONE_IRENE")] }

def c10fetch : ParsedRef → Except String (List RawCardEntry) :=
  fun _ => Except.error "socket hang up"

/-- Witness for C10: one source whose first URL fails to classify and whose
second URL classifies but fails to fetch; its owner still appears with
cardCount 0. -/
theorem owner_registered_despite_failures_w :
    assocFind (runSources c10cfg (fun _ => none) c10fetch).1 "Irene"
      = some { name := "Irene", phone := resolvePhone c10cfg (fun _ => none) "Irene", cardCount := 0 } ∧
    ({ name := "Irene", phone := resolvePhone c10cfg (fun _ => none) "Irene", cardCount := 0 } : Owner)
      ∈ (runSources c10cfg (fun _ => none) c10fetch).1.map Prod.snd :=
  owner_registered_despite_failures c10cfg (fun _ => none) c10fetch "Irene"
    ⟨c10src, by decide, rfl⟩
    (by
      intro s hs hw u hu
      have hseq : s = c10src := by simpa [c10cfg] using hs
      subst hseq
      have hu' : u = "https://example.com/cards" ∨ u = "https://moxfield.com/decks/bad1" := by
        simpa [resolvedUrls, c10src] using hu
      rcases hu' with rfl | rfl
      · exact Or.inl (by decide)
      · exact Or.inr ⟨⟨RefKind.deck, "bad1".toList⟩, "socket hang up", by decide, rfl⟩)

end InviFinder
